import Mathlib

/-!
Shallow embedding of the redaction-and-scoring core of `src/backend/main.py`
(QA-SCORING-CS-HP-2025-JUNIOR).  Strings are modelled as `List Char`; the
Python regular expressions of the source are embedded as hand-written
backtracking matchers with the exact leftmost / greedy semantics of `re.sub`
and `re.finditer` (lookarounds consult the original text, replacements are
collected separately, scanning resumes after each match).  Python floats in
the scoring engine are modelled as exact rationals; the external
`rapidfuzz` similarity functions are parameters of the scoring definitions.
ASCII character classes follow the patterns of the source
(`\w` = alphanumeric or underscore, `\s` = whitespace).
-/

namespace QA

/-- `\w` of the source's patterns: letter, digit or underscore (ASCII). -/
def isWordChar (c : Char) : Bool := c.isAlphanum || c = '_'

/-- `\s` of the source's patterns. -/
def isSpaceChar (c : Char) : Bool := c.isWhitespace

/-- Whether the character preceding the current scan position is a word
character (`none` at the very start of the text). -/
def prevIsWord : Option Char → Bool
  | some c => isWordChar c
  | none => false

/-- Whether the first remaining character is a word character (false at the
end of the text); the `(?!\w)` lookaheads of the source. -/
def headIsWord : List Char → Bool
  | c :: _ => isWordChar c
  | [] => false

/-- Length of the maximal whitespace run at the front (`\s+` greedy). -/
def wsRun (s : List Char) : Nat := (s.takeWhile isSpaceChar).length

/-- Left-to-right scan of `re.sub`: at each position the matcher `m` is
tried on the remaining text (with the previous original character for the
lookbehind/boundary assertions); on a match of length `len` with
replacement `rep` the scan resumes after the matched original text. -/
def subScan (m : Option Char → List Char → Option (Nat × List Char)) :
    Nat → Option Char → List Char → List Char
  | 0, _, s => s
  | _ + 1, _, [] => []
  | fuel + 1, prev, c :: rest =>
    match m prev (c :: rest) with
    | some (len, rep) =>
      if len = 0 then c :: subScan m fuel (some c) rest
      else rep ++ subScan m fuel (((c :: rest).take len).getLast?) ((c :: rest).drop len)
    | none => c :: subScan m fuel (some c) rest

/-- Python `str.replace`: replace every (leftmost, non-overlapping)
occurrence of `pat` by `rep`. -/
def replaceAllGo (pat rep : List Char) : Nat → List Char → List Char
  | 0, s => s
  | _ + 1, [] => []
  | fuel + 1, c :: rest =>
    if pat ≠ [] ∧ pat.isPrefixOf (c :: rest) then
      rep ++ replaceAllGo pat rep fuel ((c :: rest).drop pat.length)
    else c :: replaceAllGo pat rep fuel rest

def replaceAll (pat rep s : List Char) : List Char :=
  replaceAllGo pat rep (s.length + 1) s

/-! ### ITINERARY_RE = `\bH\d{6,12}\b` -/

/-- Match of `ITINERARY_RE` at the current position: an uppercase `H`, then
a maximal digit run of length 6–12, word-bounded on both sides.  (The
greedy `\d{6,12}` can only end at the end of the maximal digit run, since
`\b` fails between two digits.)  Returns the match length. -/
def itinAt (prev : Option Char) (s : List Char) : Option Nat :=
  match s with
  | 'H' :: rest =>
    if prevIsWord prev then none
    else
      let n := (rest.takeWhile Char.isDigit).length
      if 6 ≤ n ∧ n ≤ 12 ∧ ¬ headIsWord (rest.drop n) then some (n + 1) else none
  | _ => none

/-- `ITINERARY_RE.search` on a standalone string. -/
def itinSearch : Option Char → List Char → Bool
  | _, [] => false
  | prev, c :: rest => (itinAt prev (c :: rest)).isSome || itinSearch (some c) rest

/-- The placeholder key `__ITIN__<k>__` of `sanitize_transcript`. -/
def placeholderKey (k : Nat) : List Char :=
  "__ITIN__".data ++ (toString k).data ++ "__".data

/-- The protection pass of `sanitize_transcript`: every `ITINERARY_RE`
match is replaced by its placeholder key (numbered in match order) and the
matched originals are collected. -/
def protectGo : Nat → Option Char → List Char → Nat → List Char × List (List Char)
  | 0, _, s, _ => (s, [])
  | _ + 1, _, [], _ => ([], [])
  | fuel + 1, prev, c :: rest, k =>
    match itinAt prev (c :: rest) with
    | some len =>
      let matched := (c :: rest).take len
      let next := protectGo fuel matched.getLast? ((c :: rest).drop len) (k + 1)
      (placeholderKey k ++ next.1, matched :: next.2)
    | none =>
      let next := protectGo fuel (some c) rest k
      (c :: next.1, next.2)

/-- Restoration pass: `for k, v in placeholders.items(): t = t.replace(k, v)`
in insertion (match) order. -/
def restorePlaceholders (origs : List (List Char)) (t : List Char) : List Char :=
  origs.enum.foldl (fun acc iv => replaceAll (placeholderKey iv.1) iv.2 acc) t

/-! ### luhn_check -/

/-- The checksum loop of `luhn_check` over the already-reversed digit list:
`for i, d in enumerate(reversed(digits)): if i % 2: d *= 2; d -= 9 if d > 9`. -/
def luhnFold (ds : List Nat) : Nat :=
  ds.enum.foldl
    (fun acc id =>
      acc + (if id.1 % 2 = 1 then (if 2 * id.2 > 9 then 2 * id.2 - 9 else 2 * id.2) else id.2))
    0

/-- `luhn_check` of the source: keep only decimal digits, fail closed
outside 13–19 digits, otherwise the alternating-doubling checksum from the
rightmost digit must be divisible by 10. -/
def luhn_check (number : List Char) : Bool :=
  let digits := (number.filter Char.isDigit).map (fun c => c.toNat - 48)
  if digits.length < 13 ∨ digits.length > 19 then false
  else luhnFold digits.reverse % 10 = 0

/-! ### normalize_spoken_email -/

/-- Matcher for `(?i)\s+at\s+` / `(?i)\s+dot\s+`: a maximal whitespace run,
the literal (case-insensitively), a maximal whitespace run.  (Shorter
whitespace runs cannot match: the next character would be whitespace, not
the literal's first letter.) -/
def wsLitWsAt (lit : List Char) (rep : List Char) (_prev : Option Char) (s : List Char) :
    Option (Nat × List Char) :=
  let w1 := wsRun s
  if w1 = 0 then none
  else
    let s1 := s.drop w1
    if (s1.take lit.length).map Char.toLower = lit then
      let w2 := wsRun (s1.drop lit.length)
      if w2 = 0 then none else some (w1 + lit.length + w2, rep)
    else none

/-- Matcher for `(?i)\b([a-z])\s+(?=[a-z]\b)`: a single isolated letter,
whitespace, with a lookahead (not consumed) for a letter that ends a word.
Replacement is the captured letter. -/
def joinLetterAt (prev : Option Char) (s : List Char) : Option (Nat × List Char) :=
  match s with
  | c :: rest =>
    if c.isAlpha ∧ ¬ prevIsWord prev then
      let w := wsRun rest
      if 1 ≤ w then
        match rest.drop w with
        | d :: rest2 => if d.isAlpha ∧ ¬ headIsWord rest2 then some (1 + w, [c]) else none
        | [] => none
      else none
    else none
  | [] => none

/-- Matcher for `(?i)(@)\s+` (replacement `\1`) and `(?i)\.\s+`
(replacement `.`): a fixed character followed by a maximal whitespace run. -/
def charWsAt (ch : Char) (_prev : Option Char) (s : List Char) : Option (Nat × List Char) :=
  match s with
  | c :: rest =>
    if c = ch then
      let w := wsRun rest
      if 1 ≤ w then some (1 + w, [ch]) else none
    else none
  | [] => none

/-- `normalize_spoken_email`: the five `re.sub` passes of the source, in
order. -/
def normalizeL (t : List Char) : List Char :=
  let t1 := subScan (wsLitWsAt "at".data "@".data) (t.length + 1) none t
  let t2 := subScan (wsLitWsAt "dot".data ".".data) (t1.length + 1) none t1
  let t3 := subScan joinLetterAt (t2.length + 1) none t2
  let t4 := subScan (charWsAt '@') (t3.length + 1) none t3
  subScan (charWsAt '.') (t4.length + 1) none t4

/-! ### EMAIL_RE = `\b[A-Za-z0-9._%+-]+@[A-Za-z0-9.-]+\.[A-Za-z]{2,}\b` (re.I) -/

def isLocalChar (c : Char) : Bool :=
  c.isAlphanum || c = '.' || c = '_' || c = '%' || c = '+' || c = '-'

def isDomainChar (c : Char) : Bool := c.isAlphanum || c = '.' || c = '-'

/-- Match of `[A-Za-z0-9.-]+\.[A-Za-z]{2,}\b` at the start of `s`.  The
greedy `+` backtracks to the rightmost `.` of the maximal domain-class run
for which at least two letters follow and the letter run ends at a word
boundary (a shorter letter run is always followed by a letter, so only the
maximal letter run after each candidate dot need be tested). -/
def emailDomainLen (s : List Char) : Option Nat :=
  let D := s.takeWhile isDomainChar
  (((List.range D.length).filter
      (fun j => 1 ≤ j ∧ (D.drop j).head? = some '.')).reverse).findSome?
    (fun j =>
      let tail := s.drop (j + 1)
      let m := (tail.takeWhile Char.isAlpha).length
      if 2 ≤ m ∧ ¬ headIsWord (tail.drop m) then some (j + 1 + m) else none)

/-- Match of `EMAIL_RE` at the current position.  The leading `\b` holds iff
exactly one of (previous char, first char) is a word character; the local
part is the maximal local-class run (only the full run can be followed by
`@`, which is not in the class). -/
def emailAt (prev : Option Char) (s : List Char) : Option Nat :=
  match s with
  | c :: _ =>
    if (prevIsWord prev) = (isWordChar c) then none
    else
      let l := (s.takeWhile isLocalChar).length
      if l = 0 then none
      else
        match s.drop l with
        | '@' :: rest =>
          match emailDomainLen rest with
          | some dl => some (l + 1 + dl)
          | none => none
        | _ => none
  | [] => none

/-- Is there an `EMAIL_RE` match anywhere in `s`? -/
def emailSearch : Option Char → List Char → Bool
  | _, [] => false
  | prev, c :: rest => (emailAt prev (c :: rest)).isSome || emailSearch (some c) rest

def redact_emailsL (t : List Char) : List Char :=
  subScan (fun p s => (emailAt p s).map (·, "[EMAIL]".data)) (t.length + 1) none t

/-! ### LONG_DIGIT_RE = `(?<![A-Z])(?:\d[ -]?){13,19}(?!\w)` -/

/-- Backtracking matcher for `(?:\d[ -]?){13,19}(?!\w)` starting with
`done` iterations already performed and `fuel = 19 - done` iterations
allowed.  Alternatives in greedy order: consume digit and separator, consume
digit only, stop (when at least 13 iterations are done and the next
character is not a word character). -/
def ldGo : Nat → Nat → List Char → Option Nat
  | done, 0, s => if 13 ≤ done ∧ ¬ headIsWord s then some 0 else none
  | done, fuel + 1, s =>
    (match s with
     | d :: c :: rest =>
       if d.isDigit ∧ (c = ' ' ∨ c = '-') then (ldGo (done + 1) fuel rest).map (· + 2)
       else none
     | _ => none).orElse
    (fun _ =>
      (match s with
       | d :: rest => if d.isDigit then (ldGo (done + 1) fuel rest).map (· + 1) else none
       | _ => none).orElse
      (fun _ => if 13 ≤ done ∧ ¬ headIsWord s then some 0 else none))

/-- Match of `LONG_DIGIT_RE` at the current position (the lookbehind
excludes a preceding uppercase ASCII letter only). -/
def longDigitAt (prev : Option Char) (s : List Char) : Option Nat :=
  if (match prev with | some c => decide ('A' ≤ c) && decide (c ≤ 'Z') | none => false) then none
  else ldGo 0 19 s

/-- The replacement function `repl` of `redact_cards`: keep the match if it
contains an itinerary token, replace Luhn-valid digit content by `[CARD]`,
otherwise keep the match unchanged. -/
def cardRepl (s : List Char) : List Char :=
  if itinSearch none s then s
  else if luhn_check (s.filter Char.isDigit) then "[CARD]".data
  else s

def redact_cardsL (t : List Char) : List Char :=
  subScan (fun p s => (longDigitAt p s).map (fun len => (len, cardRepl (s.take len))))
    (t.length + 1) none t

/-! ### PHONE_RE = `(?<!\w)(?:\+?1[-.\s]?)?(?:\(?\d{3}\)?[-.\s]?){2}\d{4}(?!\w)` -/

/-- Ordered candidates of an optional single character: with it first
(greedy), then without. -/
def optP (p : Char → Bool) (s : List Char) : List (Nat × List Char) :=
  match s with
  | c :: rest => if p c then [(1, rest), (0, c :: rest)] else [(0, c :: rest)]
  | [] => [(0, [])]

/-- Consume exactly `n` decimal digits. -/
def exDigits : Nat → List Char → Option (List Char)
  | 0, s => some s
  | _ + 1, [] => none
  | n + 1, c :: rest => if c.isDigit then exDigits n rest else none

def isPhoneSep (c : Char) : Bool := c = '-' || c = '.' || isSpaceChar c

/-- Ordered candidates of one `\(?\d{3}\)?[-.\s]?` group. -/
def phoneGroup (s : List Char) : List (Nat × List Char) :=
  (optP (· = '(') s).flatMap
    (fun a =>
      match exDigits 3 a.2 with
      | none => []
      | some s2 =>
        (optP (· = ')') s2).flatMap
          (fun b => (optP isPhoneSep b.2).map (fun c => (a.1 + 3 + b.1 + c.1, c.2))))

/-- Ordered candidates of the optional `\+?1[-.\s]?` prefix: with the
prefix (in greedy order) first, then without. -/
def phonePre (s : List Char) : List (Nat × List Char) :=
  ((optP (· = '+') s).flatMap
    (fun a =>
      match a.2 with
      | '1' :: s2 => (optP isPhoneSep s2).map (fun c => (a.1 + 1 + c.1, c.2))
      | _ => [])) ++ [(0, s)]

/-- Match of `PHONE_RE` at the current position: the first candidate, in
the regex engine's backtracking order, that reaches the final `(?!\w)`. -/
def phoneAt (prev : Option Char) (s : List Char) : Option Nat :=
  if prevIsWord prev then none
  else
    ((phonePre s).flatMap
      (fun a =>
        (phoneGroup a.2).flatMap
          (fun b =>
            (phoneGroup b.2).flatMap
              (fun c =>
                match exDigits 4 c.2 with
                | some s4 => if headIsWord s4 then [] else [a.1 + b.1 + c.1 + 4]
                | none => [])))).head?

def redact_phonesL (t : List Char) : List Char :=
  subScan (fun p s => (phoneAt p s).map (·, "[PHONE]".data)) (t.length + 1) none t

/-! ### NAME_CUE_RE =
`(?i)\b(my name is|guest name is|this is|i am)\s+([A-Z][a-z]+(?:\s+[A-Z][a-z]+){0,2})`
The `(?i)` flag applies to the whole pattern, so `[A-Z][a-z]+` matches any
word of at least two letters. -/

def cueAlternatives : List (List Char) :=
  ["my name is".data, "guest name is".data, "this is".data, "i am".data]

/-- First cue alternative matching case-insensitively at the front of `s`;
returns its length. -/
def matchCue (s : List Char) : Option Nat :=
  cueAlternatives.findSome?
    (fun cue => if (s.take cue.length).map Char.toLower = cue then some cue.length else none)

/-- One name word `[A-Z][a-z]+` under `(?i)`: at least two letters, taken
greedily (the maximal letter run; shorter runs are also matches of the
pattern but greediness prefers the maximal one and nothing after it can
fail). -/
def nameWordLen : List Char → Option Nat
  | c :: rest =>
    if c.isAlpha then
      let r := (rest.takeWhile Char.isAlpha).length
      if 1 ≤ r then some (1 + r) else none
    else none
  | [] => none

/-- Greedy `(?:\s+[A-Z][a-z]+){0,2}` under `(?i)`: up to `k` further
whitespace-separated words of at least two letters. -/
def nameExtLen : Nat → List Char → Nat
  | 0, _ => 0
  | k + 1, s =>
    let w := wsRun s
    if 1 ≤ w then
      match nameWordLen (s.drop w) with
      | some n => w + n + nameExtLen k (s.drop (w + n))
      | none => 0
    else 0

/-- Match of `NAME_CUE_RE` at the current position: returns
`(cueLen, wsLen, nameLen)`.  All cue alternatives start with a letter, so
the leading `\b` holds iff the previous character is not a word character. -/
def nameCueAt (prev : Option Char) (s : List Char) : Option (Nat × Nat × Nat) :=
  if prevIsWord prev then none
  else
    match matchCue s with
    | some cl =>
      let rest := s.drop cl
      let w := wsRun rest
      if 1 ≤ w then
        match nameWordLen (rest.drop w) with
        | some n0 => some (cl, w, n0 + nameExtLen 2 (rest.drop (w + n0)))
        | none => none
      else none
    | none => none

def redact_names_after_cuesL (t : List Char) : List Char :=
  subScan
    (fun p s =>
      (nameCueAt p s).map
        (fun m => (m.1 + m.2.1 + m.2.2, s.take m.1 ++ " [NAME]".data)))
    (t.length + 1) none t

/-- Python `str.strip`. -/
def trimL (s : List Char) : List Char :=
  ((s.dropWhile isSpaceChar).reverse.dropWhile isSpaceChar).reverse

/-- `NAME_CUE_RE.finditer`, collecting `(m.start(), m.group(1).lower(),
m.group(2).strip())` as in `extract_participant_names`. -/
def nameItemsGo : Nat → Nat → Option Char → List Char → List (Nat × List Char × List Char)
  | 0, _, _, _ => []
  | _ + 1, _, _, [] => []
  | fuel + 1, pos, prev, c :: rest =>
    match nameCueAt prev (c :: rest) with
    | some m =>
      let len := m.1 + m.2.1 + m.2.2
      let s := c :: rest
      (pos, (s.take m.1).map Char.toLower, trimL ((s.drop (m.1 + m.2.1)).take m.2.2)) ::
        nameItemsGo fuel (pos + len) ((s.take len).getLast?) (s.drop len)
    | none => nameItemsGo fuel (pos + 1) (some c) rest

/-! ### The redaction pipeline -/

def normalize_spoken_email (text : String) : String := ⟨normalizeL text.data⟩

def redact_emails (text : String) : String := ⟨redact_emailsL text.data⟩

def redact_cards (text : String) : String := ⟨redact_cardsL text.data⟩

def redact_phones (text : String) : String := ⟨redact_phonesL text.data⟩

def redact_names_after_cues (text : String) : String := ⟨redact_names_after_cuesL text.data⟩

/-- `sanitize_transcript`: protect itinerary identifiers, normalize spoken
emails, redact emails, cards, phones and names, restore the placeholders. -/
def sanitize_transcript (raw : String) : String :=
  if raw = "" then raw
  else
    let p := protectGo (raw.data.length + 1) none raw.data 0
    let t := normalizeL p.1
    let t := redact_emailsL t
    let t := redact_cardsL t
    let t := redact_phonesL t
    let t := redact_names_after_cuesL t
    ⟨restorePlaceholders p.2 t⟩

/-! ### Participant names -/

/-- Python `str.split()`: whitespace-separated tokens, no empties. -/
def pySplitGo : Nat → List Char → List (List Char)
  | 0, _ => []
  | _ + 1, [] => []
  | fuel + 1, c :: rest =>
    if isSpaceChar c then pySplitGo fuel rest
    else
      let w := (c :: rest).takeWhile (fun d => ¬ isSpaceChar d)
      w :: pySplitGo fuel ((c :: rest).drop w.length)

def pySplitL (s : List Char) : List (List Char) := pySplitGo (s.length + 1) s

def joinSpace : List (List Char) → List Char
  | [] => []
  | [w] => w
  | w :: ws => w ++ ' ' :: joinSpace ws

/-- `mask_name` of the source. -/
def mask_name (name : String) : String :=
  ⟨joinSpace ((pySplitL name.data).map
    (fun p =>
      match p with
      | [] => []
      | c :: rest => if p.length ≤ 1 then [c, '*'] else c :: List.replicate (rest.length) '*'))⟩

/-- `initials` of the source. -/
def initials (name : String) : String :=
  ⟨((pySplitL name.data).filterMap
      (fun w => match w with | c :: _ => some [c.toUpper, '.'] | [] => none)).flatten⟩

structure Participant where
  masked : String
  initials : String
deriving DecidableEq, Repr

/-- `pack` inside `extract_participant_names`. -/
def packName : Option String → Option Participant
  | some n => if n = "" then none else some ⟨mask_name n, initials n⟩
  | none => none

def nameCueItems (raw : String) : List (Nat × String × String) :=
  (nameItemsGo (raw.data.length + 1) 0 none raw.data).map (fun i => (i.1, ⟨i.2.1⟩, ⟨i.2.2⟩))

/-- `extract_participant_names` of the source, with the resolution loops
rendered as `List.find?`. -/
def extract_participant_names (raw : String) : Option Participant × Option Participant :=
  if raw = "" then (none, none)
  else
    let items := nameCueItems raw
    if items.isEmpty then (none, none)
    else
      let agent0 := (items.find?
        (fun (i : Nat × String × String) =>
          (i.2.1 = "my name is" ∨ i.2.1 = "this is" ∨ i.2.1 = "i am") ∧ i.1 < 400)).map
        (fun i => i.2.2)
      let customer0 :=
        (items.find? (fun (i : Nat × String × String) => i.2.1 = "guest name is")).map
          (fun i => i.2.2)
      let customer1 :=
        match customer0 with
        | some c => some c
        | none =>
          match agent0 with
          | some a =>
            if a ≠ "" then
              (items.find? (fun (i : Nat × String × String) => i.2.2 ≠ a)).map (fun (i : Nat × String × String) => i.2.2)
            else none
          | none => none
      let agent1 :=
        match agent0 with
        | some a => some a
        | none => items.head?.map (fun (i : Nat × String × String) => i.2.2)
      let customer2 :=
        match customer1 with
        | some c => some c
        | none => if 2 ≤ items.length then (items.get? 1).map (fun (i : Nat × String × String) => i.2.2) else none
      (packName agent1, packName customer2)

/-- Agent precedence as the specification words it: the earliest cue match
whose cue is `my name is`, `this is` or `i am` with position within the
first 400 characters; when none, the first captured name overall (if any
match exists). -/
def agentResolution (items : List (Nat × String × String)) : Option String :=
  match items.find? (fun (i : Nat × String × String) =>
      (i.2.1 = "my name is" ∨ i.2.1 = "this is" ∨ i.2.1 = "i am") ∧ i.1 < 400) with
  | some i => some i.2.2
  | none => items.head?.map (fun (i : Nat × String × String) => i.2.2)

/-- Customer precedence as the specification words it: the first match
whose cue is exactly `guest name is`; else the first captured name
distinct from the cue-resolved (non-empty) agent name; else the second
captured name overall when at least two matches exist. -/
def customerResolution (items : List (Nat × String × String)) : Option String :=
  let second : Option String :=
    if 2 ≤ items.length then
      (items.get? 1).map (fun (i : Nat × String × String) => i.2.2)
    else none
  match items.find? (fun (i : Nat × String × String) => i.2.1 = "guest name is") with
  | some i => some i.2.2
  | none =>
    match (items.find? (fun (i : Nat × String × String) =>
        (i.2.1 = "my name is" ∨ i.2.1 = "this is" ∨ i.2.1 = "i am") ∧ i.1 < 400)).map
        (fun i => i.2.2) with
    | some a =>
      if a ≠ "" then
        match (items.find? (fun (i : Nat × String × String) => i.2.2 ≠ a)).map
            (fun i => i.2.2) with
        | some c => some c
        | none => second
      else second
    | none => second

/-! ### Fuzzy scoring

`fuzz.partial_ratio` and `fuzz.token_set_ratio` come from the external
`rapidfuzz` library; they are parameters (`s1`, `s2`) of the embedding.
Python floats are modelled as exact rationals. -/

def pyLower (s : String) : String := ⟨s.data.map Char.toLower⟩

def pyStrip (s : String) : String := ⟨trimL s.data⟩

/-- Python `needle in hay`: contiguous-substring test. -/
def occursInGo (needle : List Char) : Nat → List Char → Bool
  | 0, hay => needle.isPrefixOf hay
  | _ + 1, [] => needle.isPrefixOf []
  | fuel + 1, c :: rest => needle.isPrefixOf (c :: rest) || occursInGo needle fuel rest

def occursIn (needle hay : String) : Bool := occursInGo needle.data hay.data.length hay.data

/-- `_is_multiword_or_long` of the source. -/
def _is_multiword_or_long (s : String) : Bool :=
  if s = "" then false
  else 2 ≤ (pySplitL (pyStrip s).data).length || 6 ≤ (pyStrip s).data.length

/-- Python `int()` on a rational: truncation toward zero. -/
def pyInt (q : ℚ) : ℤ := if 0 ≤ q then ⌊q⌋ else ⌈q⌉

/-- The candidate loop of `_best_fuzzy_match`, carrying the running best
`(best_phrase, best_score, best_mode)`. -/
def bfmGo (s1 s2 : String → String → ℚ) (hay : String) (floor : ℚ) :
    List String → Option String × ℚ × String → Option String × ℤ × String
  | [], st =>
    if floor ≤ st.2.1 then (st.1, pyInt st.2.1, st.2.2) else (none, 0, "none")
  | p :: rest, st =>
    if p = "" then bfmGo s1 s2 hay floor rest st
    else
      let pl := pyStrip (pyLower p)
      if pl ≠ "" ∧ occursIn pl hay then (some p, 100, "substring")
      else if _is_multiword_or_long pl then
        let s := max (s1 pl hay) (s2 pl hay)
        if st.2.1 < s then bfmGo s1 s2 hay floor rest (some p, s, "fuzzy")
        else bfmGo s1 s2 hay floor rest st
      else bfmGo s1 s2 hay floor rest st

/-- `_best_fuzzy_match` of the source. -/
def _best_fuzzy_match (s1 s2 : String → String → ℚ) (phrases : List String) (hay : String)
    (floor : ℚ) : Option String × ℤ × String :=
  bfmGo s1 s2 hay floor phrases (none, 0, "none")

/-! ### Criteria scoring -/

/-- One rubric entry; `none` fields model missing dictionary keys
(`item.get(...)`). -/
structure Criterion where
  id : Option String := none
  description : Option String := none
  guideline : Option String := none
  keywords : Option (List String) := none
  alternative_phrases : Option (List String) := none
  score : Option Int := none
deriving DecidableEq, Repr

structure BreakdownEntry where
  id : Option String
  description : String
  guideline : String
  points : Int
  passed : Bool
  matched_phrase : Option String
  similarity : Int
  mode : String
deriving DecidableEq, Repr

structure Totals where
  earned_points : Int
  total_points : Int
  passed : Nat
  failed : Nat
deriving DecidableEq, Repr

/-- The exact-only scan of the per-criterion loop: the first keyword whose
lowercased, stripped form is non-empty and occurs in the transcript. -/
def firstExactHit (t : String) : List String → Option String
  | [] => none
  | k :: rest =>
    let kl := pyStrip (pyLower k)
    if kl ≠ "" ∧ occursIn kl t then some k else firstExactHit t rest

/-- The initialized per-criterion result of the scoring loop. -/
def baseEntry (item : Criterion) : BreakdownEntry :=
  ⟨item.id, item.description.getD "", item.guideline.getD "", item.score.getD 0,
    false, none, 0, "none"⟩

/-- The exact-only keyword pool of a criterion: keywords that are neither
multi-word nor a long single token. -/
def exactOnly (item : Criterion) : List String :=
  (item.keywords.getD []).filter (fun k => ¬ _is_multiword_or_long k)

/-- The fuzzy-eligible pool of a criterion: multiword-or-long keywords,
then the guideline when present, then all alternative phrases. -/
def fuzzyPool (item : Criterion) : List String :=
  (item.keywords.getD []).filter (fun k => _is_multiword_or_long k) ++
    (if item.guideline.getD "" ≠ "" then [item.guideline.getD ""] else []) ++
    item.alternative_phrases.getD []

/-- The body of the per-criterion loop of `score_with_breakdown`
(`t` is the already-lowercased transcript). -/
def evalCriterion (s1 s2 : String → String → ℚ) (t : String) (item : Criterion) :
    BreakdownEntry :=
  let exact_only := exactOnly item
  let fuzzy_ok := fuzzyPool item
  let base : BreakdownEntry := baseEntry item
  match firstExactHit t exact_only with
  | some k =>
    { base with passed := true, matched_phrase := some k, similarity := 100, mode := "substring" }
  | none =>
    if fuzzy_ok.isEmpty then base
    else
      match _best_fuzzy_match s1 s2 fuzzy_ok t 72 with
      | (some m, sc, md) =>
        if m ≠ "" ∧ 72 ≤ sc then
          { base with passed := true, matched_phrase := some m, similarity := sc, mode := md }
        else base
      | (none, _, _) => base

/-- The accumulation loop of `score_with_breakdown`: returns
`(total_points, earned_points, breakdown)`. -/
def swbGo (s1 s2 : String → String → ℚ) (t : String) :
    List Criterion → Int × Int × List BreakdownEntry
  | [] => (0, 0, [])
  | item :: rest =>
    let e := evalCriterion s1 s2 t item
    let acc := swbGo s1 s2 t rest
    (e.points + acc.1, (if e.passed then e.points else 0) + acc.2.1, e :: acc.2.2)

/-- Round-half-to-even to an integer (decimal tie handling of Python's
`round` on the modelled exact value). -/
def halfEvenZ (q : ℚ) : ℤ :=
  if q - ⌊q⌋ = (1 : ℚ) / 2 then (if ⌊q⌋ % 2 = 0 then ⌊q⌋ else ⌊q⌋ + 1) else round q

/-- `round(x, 2)` on the modelled exact value. -/
def pyRound2 (q : ℚ) : ℚ := (halfEvenZ (q * 100) : ℚ) / 100

/-- `score_with_breakdown` of the source: lowercases the transcript,
evaluates every criterion, and aggregates points and pass/fail counts. -/
def score_with_breakdown (s1 s2 : String → String → ℚ) (transcript : String)
    (criteria : List Criterion) : ℚ × List BreakdownEntry × Totals :=
  let t := pyLower transcript
  let acc := swbGo s1 s2 t criteria
  let total_points := acc.1
  let earned_points := acc.2.1
  let breakdown := acc.2.2
  let score_percent : ℚ :=
    if 0 < total_points then pyRound2 ((earned_points : ℚ) / (total_points : ℚ) * 100) else 0
  (score_percent, breakdown,
    ⟨earned_points, total_points, breakdown.countP (·.passed),
      breakdown.countP (fun b => ¬ b.passed)⟩)

/-! ## Helper lemmas -/

/-- Independent pairwise formulation of the alternating-doubling checksum,
read over the reversed digit list: the first digit (the card's rightmost)
is kept, the second is doubled with 9 subtracted above 9, and so on. -/
def luhnSpecSum : List Nat → Nat
  | [] => 0
  | [d] => d
  | d1 :: d2 :: rest => d1 + (if 9 < 2 * d2 then 2 * d2 - 9 else 2 * d2) + luhnSpecSum rest

/-- Parity-carrying form of the checksum loop. -/
def luhnAlt : Bool → List Nat → Nat
  | _, [] => 0
  | false, d :: rest => d + luhnAlt true rest
  | true, d :: rest => (if 9 < 2 * d then 2 * d - 9 else 2 * d) + luhnAlt false rest

/-- The digit values of a string, as extracted by `luhn_check`. -/
def digitVals (s : List Char) : List Nat :=
  (s.filter Char.isDigit).map (fun c => c.toNat - 48)

lemma luhnFold_from (ds : List Nat) : ∀ (n acc : Nat),
    (List.enumFrom n ds).foldl
      (fun acc id =>
        acc + (if id.1 % 2 = 1 then (if 2 * id.2 > 9 then 2 * id.2 - 9 else 2 * id.2) else id.2))
      acc
    = acc + luhnAlt (n % 2 == 1) ds := by
  induction ds with
  | nil => intro n acc; simp [luhnAlt]
  | cons d rest ih =>
    intro n acc
    rcases Nat.even_or_odd n with he | ho
    · have h1 : n % 2 = 0 := Nat.even_iff.mp he
      have h2 : (n + 1) % 2 = 1 := by omega
      simp only [List.enumFrom, List.foldl_cons, ih (n + 1), h1, h2]
      simp [luhnAlt]
      omega
    · have h1 : n % 2 = 1 := Nat.odd_iff.mp ho
      have h2 : (n + 1) % 2 = 0 := by omega
      simp only [List.enumFrom, List.foldl_cons, ih (n + 1), h1, h2]
      simp [luhnAlt]
      all_goals omega

lemma luhnAlt_false_eq : ∀ ds, luhnAlt false ds = luhnSpecSum ds
  | [] => rfl
  | [d] => by simp [luhnAlt, luhnSpecSum]
  | d1 :: d2 :: rest => by
    simp [luhnAlt, luhnSpecSum, luhnAlt_false_eq rest]
    exact (Nat.add_assoc _ _ _).symm

lemma luhnFold_eq_spec (ds : List Nat) : luhnFold ds = luhnSpecSum ds := by
  have h := luhnFold_from ds 0 0
  simpa [luhnFold, List.enum, luhnAlt_false_eq] using h

lemma itinAt_eq_none (prev : Option Char) (s : List Char) (h : ∀ c ∈ s, c ≠ 'H') :
    itinAt prev s = none := by
  cases s with
  | nil => rfl
  | cons c rest =>
    have hc : c ≠ 'H' := h c (by simp)
    unfold itinAt
    split
    · rename_i s1 rest1 heq
      injection heq with h1 h2
      exact absurd h1 hc
    · rfl

lemma itinSearch_eq_false (s : List Char) (h : ∀ c ∈ s, c ≠ 'H') :
    ∀ prev, itinSearch prev s = false := by
  induction s with
  | nil => intro prev; rfl
  | cons c rest ih =>
    intro prev
    have h1 : ∀ d ∈ rest, d ≠ 'H' := fun d hd => h d (by simp [hd])
    simp [itinSearch, itinAt_eq_none prev _ h, ih h1]

/-! ## Claims -/

/-- C1.  The central redaction invariant fails: on the raw transcript
`"a@H123456.com"` the pipeline returns its input unchanged (the itinerary
placeholder hides the domain from `EMAIL_RE`, and restoration reinstates
the address), so the masked transcript still contains a substring matching
the pipeline's own email pattern. -/
theorem masked_transcript_contains_email :
    sanitize_transcript "a@H123456.com" = "a@H123456.com" ∧
    emailSearch none (sanitize_transcript "a@H123456.com").data = true := by
  constructor
  · decide
  · decide

/-- C2.  Itinerary preservation fails: the raw transcript
`"H123456 at foo dot com"` contains the word-bounded token `H123456`
(witnessed by `ITINERARY_RE` matching), but the spoken-email normalizer
rewrites the protection placeholder into an email address, email redaction
consumes it, and the token is absent from the output `"[EMAIL]"`. -/
theorem itinerary_token_destroyed :
    itinSearch none ("H123456 at foo dot com").data = true ∧
    sanitize_transcript "H123456 at foo dot com" = "[EMAIL]" ∧
    occursIn "H123456" (sanitize_transcript "H123456 at foo dot com") = false := by
  refine ⟨by decide, by decide, by decide⟩

/-- C9.  The redaction pipeline is not idempotent: the first pass over
`"415-555-2672-0000000000000"` leaves the Luhn-valid run `0000000000000`
exposed (it was scanned as the tail of a longer, Luhn-invalid candidate
and the phone match consumed the prefix), and a second pass redacts it to
`[CARD]`. -/
theorem sanitize_not_idempotent :
    sanitize_transcript "415-555-2672-0000000000000" = "[PHONE]-0000000000000" ∧
    sanitize_transcript (sanitize_transcript "415-555-2672-0000000000000") =
      "[PHONE]-[CARD]" ∧
    sanitize_transcript (sanitize_transcript "415-555-2672-0000000000000") ≠
      sanitize_transcript "415-555-2672-0000000000000" := by
  refine ⟨by decide, by decide, by decide⟩

/-- C3.  The card redactor replaces a matched run by `[CARD]` iff the
stripped digits pass the Luhn checksum (a matched run consists of digits,
spaces and hyphens only, so the itinerary guard inside `repl` never
fires); the two example inputs behave as specified; and `luhn_check`
returns true iff 13–19 digits remain and the alternating-doubling checksum
from the rightmost digit is divisible by 10. -/
theorem card_redaction_luhn_gated :
    (∀ s : List Char, (∀ c ∈ s, c.isDigit ∨ c = ' ' ∨ c = '-') →
      cardRepl s = if luhn_check (s.filter Char.isDigit) then "[CARD]".data else s) ∧
    redact_cards "4111 1111 1111 1111" = "[CARD]" ∧
    redact_cards "1234 5678 9012 3456" = "1234 5678 9012 3456" ∧
    (∀ s : List Char, luhn_check s = true ↔
      13 ≤ (digitVals s).length ∧ (digitVals s).length ≤ 19 ∧
        luhnSpecSum (digitVals s).reverse % 10 = 0) := by
  refine ⟨?_, by decide, by decide, ?_⟩
  · intro s h
    have hH : ∀ c ∈ s, c ≠ 'H' := by
      intro c hc
      rcases h c hc with h1 | h1 | h1 <;> (intro he; subst he; simp_all)
    unfold cardRepl
    rw [itinSearch_eq_false s hH none]
    simp
  · intro s
    simp only [luhn_check, luhnFold_eq_spec, digitVals]
    split
    · next hlen =>
      constructor
      · intro h; exact absurd h (by simp)
      · intro h; exfalso; omega
    · next hlen =>
      simp only [decide_eq_true_eq]
      constructor
      · intro h; exact ⟨by omega, by omega, h⟩
      · intro h; exact h.2.2

/-- C3 witness: the general parts of `card_redaction_luhn_gated` applied
at concrete inputs. -/
theorem card_redaction_luhn_gated_witness :
    cardRepl "0000000000000".data = "[CARD]".data ∧
    (luhn_check "4111111111111111".data = true ↔
      13 ≤ (digitVals "4111111111111111".data).length ∧
        (digitVals "4111111111111111".data).length ≤ 19 ∧
        luhnSpecSum (digitVals "4111111111111111".data).reverse % 10 = 0) := by
  constructor
  · rw [card_redaction_luhn_gated.1 "0000000000000".data (by decide)]
    decide
  · exact card_redaction_luhn_gated.2.2.2 "4111111111111111".data

/-! ## Scoring-engine lemmas -/

/-- The malformed (all-fields-missing) rubric entry. -/
def malformedCriterion : Criterion := ⟨none, none, none, none, none, none⟩

lemma evalCriterion_points (s1 s2 : String → String → ℚ) (t : String) (item : Criterion) :
    (evalCriterion s1 s2 t item).points = item.score.getD 0 := by
  simp only [evalCriterion]
  split
  · rfl
  · split
    · rfl
    · split
      · split
        · rfl
        · rfl
      · rfl

lemma swbGo_breakdown (s1 s2 : String → String → ℚ) (t : String) (cs : List Criterion) :
    (swbGo s1 s2 t cs).2.2 = cs.map (evalCriterion s1 s2 t) := by
  induction cs with
  | nil => rfl
  | cons item rest ih => simp [swbGo, ih]

lemma swbGo_total (s1 s2 : String → String → ℚ) (t : String) (cs : List Criterion) :
    (swbGo s1 s2 t cs).1 = (cs.map (fun c => c.score.getD 0)).sum := by
  induction cs with
  | nil => rfl
  | cons item rest ih => simp [swbGo, ih, evalCriterion_points]

lemma swbGo_earned (s1 s2 : String → String → ℚ) (t : String) (cs : List Criterion) :
    (swbGo s1 s2 t cs).2.1 =
      (((cs.map (evalCriterion s1 s2 t)).filter (·.passed)).map (·.points)).sum := by
  induction cs with
  | nil => rfl
  | cons item rest ih =>
    by_cases hp : (evalCriterion s1 s2 t item).passed
    · simp [swbGo, ih, hp, List.filter_cons]
    · simp [swbGo, ih, hp, List.filter_cons]

/-- C5.  Weight accounting of the scoring engine: `total_points` is the sum
of every criterion's weight regardless of outcome, `earned_points` is the
sum of the weights of the passed entries, `score_percent` is
`round(earned/total*100, 2)` when `total_points > 0` and exactly `0`
otherwise, and a rubric with zero criteria yields score `0` and
`total_points = 0` with no division fault. -/
theorem scoring_weight_accounting (s1 s2 : String → String → ℚ) (transcript : String)
    (criteria : List Criterion) :
    (score_with_breakdown s1 s2 transcript criteria).2.2.total_points =
      (criteria.map (fun c => c.score.getD 0)).sum ∧
    (score_with_breakdown s1 s2 transcript criteria).2.2.earned_points =
      ((((score_with_breakdown s1 s2 transcript criteria).2.1).filter
          (·.passed)).map (·.points)).sum ∧
    (score_with_breakdown s1 s2 transcript criteria).1 =
      (if 0 < (score_with_breakdown s1 s2 transcript criteria).2.2.total_points then
        pyRound2
          (((score_with_breakdown s1 s2 transcript criteria).2.2.earned_points : ℚ) /
              ((score_with_breakdown s1 s2 transcript criteria).2.2.total_points : ℚ) * 100)
      else 0) ∧
    score_with_breakdown s1 s2 transcript [] = (0, [], ⟨0, 0, 0, 0⟩) := by
  refine ⟨?_, ?_, ?_, rfl⟩
  · simp only [score_with_breakdown, swbGo_total]
  · simp only [score_with_breakdown, swbGo_earned, swbGo_breakdown]
  · simp only [score_with_breakdown]

lemma bfmGo_substring_return (s1 s2 : String → String → ℚ) (hay : String) (floor : ℚ)
    (p : String) (rest : List String) (hp : p ≠ "") (hpl : pyStrip (pyLower p) ≠ "")
    (hocc : occursIn (pyStrip (pyLower p)) hay = true) :
    ∀ (pre : List String),
      (∀ q ∈ pre, q = "" ∨ pyStrip (pyLower q) = "" ∨
        occursIn (pyStrip (pyLower q)) hay = false) →
      ∀ st, bfmGo s1 s2 hay floor (pre ++ p :: rest) st = (some p, 100, "substring") := by
  intro pre
  induction pre with
  | nil =>
    intro _ st
    simp [bfmGo, hp, hpl, hocc]
  | cons q pre ih =>
    intro hq st
    have hq0 := hq q (by simp)
    have hpre : ∀ r ∈ pre, r = "" ∨ pyStrip (pyLower r) = "" ∨
        occursIn (pyStrip (pyLower r)) hay = false :=
      fun r hr => hq r (by simp [hr])
    rcases hq0 with h0 | h0 | h0
    · simp [bfmGo, h0, ih hpre]
    · simp only [List.cons_append, bfmGo]
      split
      · exact ih hpre _
      · rw [if_neg (by simp [h0])]
        split
        · split
          · exact ih hpre _
          · exact ih hpre _
        · exact ih hpre _
    · simp only [List.cons_append, bfmGo]
      split
      · exact ih hpre _
      · rw [if_neg (by simp [h0])]
        split
        · split
          · exact ih hpre _
          · exact ih hpre _
        · exact ih hpre _

lemma bfmGo_score_invariance (s1 s2 s1' s2' : String → String → ℚ) (hay : String)
    (floor : ℚ) :
    ∀ (ps : List String),
      (∀ p ∈ ps, _is_multiword_or_long (pyStrip (pyLower p)) = true →
        s1 (pyStrip (pyLower p)) hay = s1' (pyStrip (pyLower p)) hay ∧
        s2 (pyStrip (pyLower p)) hay = s2' (pyStrip (pyLower p)) hay) →
      ∀ st, bfmGo s1 s2 hay floor ps st = bfmGo s1' s2' hay floor ps st := by
  intro ps
  induction ps with
  | nil => intro _ st; rfl
  | cons p rest ih =>
    intro hps st
    have hrest : ∀ q ∈ rest, _is_multiword_or_long (pyStrip (pyLower q)) = true →
        s1 (pyStrip (pyLower q)) hay = s1' (pyStrip (pyLower q)) hay ∧
        s2 (pyStrip (pyLower q)) hay = s2' (pyStrip (pyLower q)) hay :=
      fun q hq => hps q (by simp [hq])
    by_cases hp : p = ""
    · simp [bfmGo, hp, ih hrest]
    · simp only [bfmGo, if_neg hp]
      split
      · rfl
      · split
        · next helig =>
          have heq := hps p (by simp) (by simpa using helig)
          rw [heq.1, heq.2]
          split <;> exact ih hrest _
        · exact ih hrest _

/-- The score the candidate loop assigns to a phrase: the maximum of the
two similarity functions on its lowercased, stripped form. -/
def fuzzyScore (s1 s2 : String → String → ℚ) (hay p : String) : ℚ :=
  max (s1 (pyStrip (pyLower p)) hay) (s2 (pyStrip (pyLower p)) hay)

/-- The candidates the loop actually scores: non-empty phrases whose
lowercased, stripped form is multiword-or-long. -/
def eligibleList (ps : List String) : List String :=
  ps.filter (fun p => decide (p ≠ "") && _is_multiword_or_long (pyStrip (pyLower p)))

/-- The best score over the eligible candidates, folded over the base `b`
(the loop's incoming `best_score`). -/
def bestOver (s1 s2 : String → String → ℚ) (hay : String) (ps : List String) (b : ℚ) : ℚ :=
  ((eligibleList ps).map (fuzzyScore s1 s2 hay)).foldr max b

lemma le_foldr_max (b : ℚ) (L : List ℚ) : b ≤ L.foldr max b := by
  induction L with
  | nil => exact le_refl b
  | cons x L ih => exact le_trans ih (le_max_right x _)

lemma foldr_max_base (b s : ℚ) (L : List ℚ) :
    L.foldr max (max b s) = max s (L.foldr max b) := by
  induction L with
  | nil => exact max_comm b s
  | cons x L ih => rw [List.foldr_cons, List.foldr_cons, ih, max_left_comm]

/-- The candidate loop without substring hits computes exactly the running
maximum of the eligible candidates' scores over the incoming `best_score`,
and on success reports the first candidate attaining it (the loop only
updates on a strict improvement). -/
lemma bfmGo_best (s1 s2 : String → String → ℚ) (hay : String) (floor : ℚ) :
    ∀ (ps : List String) (st : Option String × ℚ × String),
      (∀ q ∈ ps, q = "" ∨ pyStrip (pyLower q) = "" ∨
        occursIn (pyStrip (pyLower q)) hay = false) →
      bfmGo s1 s2 hay floor ps st =
        if st.2.1 < bestOver s1 s2 hay ps st.2.1 then
          (if floor ≤ bestOver s1 s2 hay ps st.2.1 then
            ((eligibleList ps).find?
                (fun p => fuzzyScore s1 s2 hay p = bestOver s1 s2 hay ps st.2.1),
              pyInt (bestOver s1 s2 hay ps st.2.1), "fuzzy")
          else (none, 0, "none"))
        else if floor ≤ st.2.1 then (st.1, pyInt st.2.1, st.2.2) else (none, 0, "none") := by
  intro ps
  induction ps with
  | nil =>
    intro st hno
    have hb : bestOver s1 s2 hay [] st.2.1 = st.2.1 := rfl
    rw [hb, if_neg (lt_irrefl _)]
    rfl
  | cons p rest ih =>
    intro st hno
    have hrest : ∀ q ∈ rest, q = "" ∨ pyStrip (pyLower q) = "" ∨
        occursIn (pyStrip (pyLower q)) hay = false :=
      fun q hq => hno q (by simp [hq])
    have hp0 := hno p (by simp)
    by_cases hp : p = ""
    · have hel : eligibleList (p :: rest) = eligibleList rest := by
        simp [eligibleList, hp]
      have hB : bestOver s1 s2 hay (p :: rest) st.2.1 = bestOver s1 s2 hay rest st.2.1 := by
        simp [bestOver, hel]
      simp only [bfmGo, if_pos hp]
      rw [ih st hrest, hB, hel]
    · have hnohit :
          ¬ (pyStrip (pyLower p) ≠ "" ∧ occursIn (pyStrip (pyLower p)) hay = true) := by
        rcases hp0 with h0 | h0 | h0
        · exact absurd h0 hp
        · intro hc; exact hc.1 h0
        · intro hc; rw [h0] at hc; exact absurd hc.2 (by simp)
      by_cases helig : _is_multiword_or_long (pyStrip (pyLower p)) = true
      · have hel : eligibleList (p :: rest) = p :: eligibleList rest := by
          simp [eligibleList, hp, helig]
        have hB : bestOver s1 s2 hay (p :: rest) st.2.1 =
            max (fuzzyScore s1 s2 hay p) (bestOver s1 s2 hay rest st.2.1) := by
          simp [bestOver, hel]
        have hfs : max (s1 (pyStrip (pyLower p)) hay) (s2 (pyStrip (pyLower p)) hay) =
            fuzzyScore s1 s2 hay p := rfl
        simp only [bfmGo, if_neg hp]
        rw [if_neg hnohit, if_pos helig, hfs]
        by_cases hlt : st.2.1 < fuzzyScore s1 s2 hay p
        · rw [if_pos hlt, ih (some p, fuzzyScore s1 s2 hay p, "fuzzy") hrest]
          dsimp only
          have hbase : bestOver s1 s2 hay rest (fuzzyScore s1 s2 hay p) =
              max (fuzzyScore s1 s2 hay p) (bestOver s1 s2 hay rest st.2.1) := by
            have h2 := foldr_max_base st.2.1 (fuzzyScore s1 s2 hay p)
              ((eligibleList rest).map (fuzzyScore s1 s2 hay))
            rw [max_eq_right hlt.le] at h2
            exact h2
          rw [hbase, ← hB, hel]
          have hstB : st.2.1 < bestOver s1 s2 hay (p :: rest) st.2.1 :=
            lt_of_lt_of_le hlt (by rw [hB]; exact le_max_left _ _)
          rw [if_pos hstB]
          by_cases hcmp : fuzzyScore s1 s2 hay p < bestOver s1 s2 hay (p :: rest) st.2.1
          · rw [if_pos hcmp]
            by_cases hf : floor ≤ bestOver s1 s2 hay (p :: rest) st.2.1
            · rw [if_pos hf, if_pos hf,
                List.find?_cons_of_neg _ (by simp [ne_of_lt hcmp])]
            · rw [if_neg hf, if_neg hf]
          · have hBfs : bestOver s1 s2 hay (p :: rest) st.2.1 = fuzzyScore s1 s2 hay p :=
              le_antisymm (not_lt.mp hcmp) (by rw [hB]; exact le_max_left _ _)
            rw [if_neg hcmp, hBfs, List.find?_cons_of_pos _ (by simp)]
        · rw [if_neg hlt, ih st hrest]
          have hfsR : fuzzyScore s1 s2 hay p ≤ bestOver s1 s2 hay rest st.2.1 :=
            le_trans (not_lt.mp hlt) (le_foldr_max _ _)
          have hBR : bestOver s1 s2 hay (p :: rest) st.2.1 =
              bestOver s1 s2 hay rest st.2.1 := by
            rw [hB]; exact max_eq_right hfsR
          rw [← hBR, hel]
          by_cases hcond : st.2.1 < bestOver s1 s2 hay (p :: rest) st.2.1
          · rw [if_pos hcond, if_pos hcond]
            by_cases hf : floor ≤ bestOver s1 s2 hay (p :: rest) st.2.1
            · have hne : fuzzyScore s1 s2 hay p ≠ bestOver s1 s2 hay (p :: rest) st.2.1 :=
                ne_of_lt (lt_of_le_of_lt (not_lt.mp hlt) hcond)
              rw [if_pos hf, if_pos hf, List.find?_cons_of_neg _ (by simp [hne])]
            · rw [if_neg hf, if_neg hf]
          · rw [if_neg hcond, if_neg hcond]
      · have helig' : _is_multiword_or_long (pyStrip (pyLower p)) = false := by
          simpa using helig
        have hel : eligibleList (p :: rest) = eligibleList rest := by
          simp [eligibleList, helig']
        have hB : bestOver s1 s2 hay (p :: rest) st.2.1 = bestOver s1 s2 hay rest st.2.1 := by
          simp [bestOver, hel]
        simp only [bfmGo, if_neg hp]
        rw [if_neg hnohit, if_neg helig, ih st hrest, hB, hel]

/-- C4.  The fuzzy matching engine: (1) the first non-empty candidate whose
lowercased, trimmed form occurs verbatim in the haystack is returned
immediately as `(phrase, 100, "substring")`, whatever the remaining
candidates are; (2) the similarity functions are consulted only on
multiword-or-long phrases — the result is invariant under changing them
anywhere else; (3) with no substring hit among any sequence of candidates,
the engine returns the best-scoring eligible phrase (the first attaining
the best score) with mode `"fuzzy"` iff that best score is positive and
meets or exceeds the floor inclusively, and otherwise returns
`(none, 0, "none")`. -/
theorem fuzzy_matching_engine :
    (∀ (s1 s2 : String → String → ℚ) (hay : String) (floor : ℚ)
        (pre : List String) (p : String) (rest : List String),
      (∀ q ∈ pre, q = "" ∨ pyStrip (pyLower q) = "" ∨
        occursIn (pyStrip (pyLower q)) hay = false) →
      p ≠ "" → pyStrip (pyLower p) ≠ "" → occursIn (pyStrip (pyLower p)) hay = true →
      _best_fuzzy_match s1 s2 (pre ++ p :: rest) hay floor = (some p, 100, "substring")) ∧
    (∀ (s1 s2 s1' s2' : String → String → ℚ) (ps : List String) (hay : String) (floor : ℚ),
      (∀ p ∈ ps, _is_multiword_or_long (pyStrip (pyLower p)) = true →
        s1 (pyStrip (pyLower p)) hay = s1' (pyStrip (pyLower p)) hay ∧
        s2 (pyStrip (pyLower p)) hay = s2' (pyStrip (pyLower p)) hay) →
      _best_fuzzy_match s1 s2 ps hay floor = _best_fuzzy_match s1' s2' ps hay floor) ∧
    (∀ (s1 s2 : String → String → ℚ) (ps : List String) (hay : String) (floor : ℚ),
      (∀ q ∈ ps, q = "" ∨ pyStrip (pyLower q) = "" ∨
        occursIn (pyStrip (pyLower q)) hay = false) →
      _best_fuzzy_match s1 s2 ps hay floor =
        (if 0 < bestOver s1 s2 hay ps 0 ∧ floor ≤ bestOver s1 s2 hay ps 0 then
          ((eligibleList ps).find?
              (fun p => fuzzyScore s1 s2 hay p = bestOver s1 s2 hay ps 0),
            pyInt (bestOver s1 s2 hay ps 0), "fuzzy")
        else (none, 0, "none"))) := by
  refine ⟨?_, ?_, ?_⟩
  · intro s1 s2 hay floor pre p rest hpre hp hpl hocc
    exact bfmGo_substring_return s1 s2 hay floor p rest hp hpl hocc pre hpre _
  · intro s1 s2 s1' s2' ps hay floor hagree
    exact bfmGo_score_invariance s1 s2 s1' s2' hay floor ps hagree _
  · intro s1 s2 ps hay floor hno
    have h2 : bfmGo s1 s2 hay floor ps (none, 0, "none") =
        if (0 : ℚ) < bestOver s1 s2 hay ps 0 then
          (if floor ≤ bestOver s1 s2 hay ps 0 then
            ((eligibleList ps).find?
                (fun p => fuzzyScore s1 s2 hay p = bestOver s1 s2 hay ps 0),
              pyInt (bestOver s1 s2 hay ps 0), "fuzzy")
          else (none, 0, "none"))
        else if floor ≤ (0 : ℚ) then (none, pyInt 0, "none") else (none, 0, "none") :=
      bfmGo_best s1 s2 hay floor ps (none, 0, "none") hno
    unfold _best_fuzzy_match
    rw [h2]
    have hz : pyInt 0 = 0 := by norm_num [pyInt]
    by_cases h0 : (0 : ℚ) < bestOver s1 s2 hay ps 0
    · by_cases hf : floor ≤ bestOver s1 s2 hay ps 0
      · rw [if_pos h0, if_pos hf, if_pos ⟨h0, hf⟩]
      · rw [if_pos h0, if_neg hf, if_neg (fun hc => hf hc.2)]
    · rw [if_neg h0,
        if_neg (show ¬ ((0 : ℚ) < bestOver s1 s2 hay ps 0 ∧
          floor ≤ bestOver s1 s2 hay ps 0) from fun hc => h0 hc.1)]
      by_cases hf : floor ≤ (0 : ℚ)
      · rw [if_pos hf, hz]
      · rw [if_neg hf]

/-- C4 witness: the three parts of `fuzzy_matching_engine` at concrete
inputs; part (3) is exercised on a three-candidate list (the best-scoring
phrase wins across candidates), on a candidate scoring exactly 72 against
floor 72 (inclusive boundary, passes) and on one scoring 71 (fails). -/
theorem fuzzy_matching_engine_witness :
    _best_fuzzy_match (fun p _ => if p = "ghijkl" then 80 else if p = "mnopqr" then 72 else 50)
        (fun _ _ => 0) ["abcdef", "ghijkl", "mnopqr"] "zzz" 72 =
      (some "ghijkl", 80, "fuzzy") ∧
    _best_fuzzy_match (fun _ _ => 72) (fun _ _ => 0) ["abcdef", "ghijkl"] "zzz" 72 =
      (some "abcdef", 72, "fuzzy") ∧
    _best_fuzzy_match (fun _ _ => 71) (fun _ _ => 0) ["abcdef"] "zzz" 72 =
      (none, 0, "none") ∧
    _best_fuzzy_match (fun _ _ => 0) (fun _ _ => 0) ["x", "hello there"]
        "say hello there now" 72 = (some "hello there", 100, "substring") ∧
    _best_fuzzy_match (fun _ _ => 5) (fun _ _ => 7) ["ab"] "zzz" 72 =
      _best_fuzzy_match (fun _ _ => 95) (fun _ _ => 97) ["ab"] "zzz" 72 := by
  have h := fuzzy_matching_engine
  refine ⟨?_, ?_, ?_, ?_, ?_⟩
  · rw [h.2.2 (fun p _ => if p = "ghijkl" then 80 else if p = "mnopqr" then 72 else 50)
      (fun _ _ => 0) ["abcdef", "ghijkl", "mnopqr"] "zzz" 72 (by decide)]
    decide
  · rw [h.2.2 (fun _ _ => 72) (fun _ _ => 0) ["abcdef", "ghijkl"] "zzz" 72 (by decide)]
    decide
  · rw [h.2.2 (fun _ _ => 71) (fun _ _ => 0) ["abcdef"] "zzz" 72 (by decide)]
    decide
  · have := h.1 (fun _ _ => 0) (fun _ _ => 0) "say hello there now" 72 ["x"] "hello there" []
      (by intro q hq; simp at hq; subst hq; right; right; decide)
      (by decide) (by decide) (by decide)
    simpa using this
  · exact h.2.1 (fun _ _ => 5) (fun _ _ => 7) (fun _ _ => 95) (fun _ _ => 97) ["ab"] "zzz" 72
      (by intro p hp helig; simp at hp; subst hp; exact absurd helig (by decide))

lemma bfmGo_shape (s1 s2 : String → String → ℚ) (hay : String) :
    ∀ (ps : List String) (st : Option String × ℚ × String),
      (st.1 = none → st.2.1 = 0 ∧ st.2.2 = "none") →
      (∀ m, st.1 = some m → st.2.2 = "fuzzy" ∧ m ≠ "") →
      0 ≤ st.2.1 →
      ((bfmGo s1 s2 hay 72 ps st).1 = none →
        bfmGo s1 s2 hay 72 ps st = (none, 0, "none")) ∧
      (∀ m, (bfmGo s1 s2 hay 72 ps st).1 = some m → m ≠ "" ∧
        (((bfmGo s1 s2 hay 72 ps st).2.2 = "substring" ∧
          (bfmGo s1 s2 hay 72 ps st).2.1 = 100) ∨
         ((bfmGo s1 s2 hay 72 ps st).2.2 = "fuzzy" ∧
          72 ≤ (bfmGo s1 s2 hay 72 ps st).2.1))) := by
  intro ps
  induction ps with
  | nil =>
    intro st h1 h2 h0
    simp only [bfmGo]
    split
    · next h72 =>
      constructor
      · intro hn
        rcases h1 hn with ⟨hz, _⟩
        rw [hz] at h72
        exact absurd h72 (by norm_num)
      · intro m hm
        rcases h2 m hm with ⟨hf, hne⟩
        refine ⟨hne, Or.inr ⟨hf, ?_⟩⟩
        simp only [pyInt, if_pos h0]
        exact Int.le_floor.mpr (by exact_mod_cast h72)
    · exact ⟨fun _ => rfl, fun m hm => absurd hm (by simp)⟩
  | cons p rest ih =>
    intro st h1 h2 h0
    by_cases hp : p = ""
    · simp only [bfmGo, if_pos hp]
      exact ih st h1 h2 h0
    · simp only [bfmGo, if_neg hp]
      split
      · next hhit =>
        refine ⟨fun hn => absurd hn (by simp), fun m hm => ?_⟩
        have : p = m := by simpa using hm
        subst this
        exact ⟨hp, Or.inl ⟨rfl, rfl⟩⟩
      · split
        · split
          · next hlt =>
            refine ih (some p, _, "fuzzy") (by simp) (fun m hm => ⟨rfl, ?_⟩)
              (le_of_lt (lt_of_le_of_lt h0 hlt))
            have hpm : p = m := by simpa using hm
            exact hpm ▸ hp
          · exact ih st h1 h2 h0
        · exact ih st h1 h2 h0

/-- Results of `_best_fuzzy_match` at floor 72: a `none` result is exactly
`(none, 0, "none")`, and a `some` result carries a non-empty phrase with
mode `"substring"` (similarity 100) or `"fuzzy"` (similarity at least 72). -/
lemma bfm_shape (s1 s2 : String → String → ℚ) (ps : List String) (hay : String) :
    ((_best_fuzzy_match s1 s2 ps hay 72).1 = none →
      _best_fuzzy_match s1 s2 ps hay 72 = (none, 0, "none")) ∧
    (∀ m, (_best_fuzzy_match s1 s2 ps hay 72).1 = some m → m ≠ "" ∧
      (((_best_fuzzy_match s1 s2 ps hay 72).2.2 = "substring" ∧
        (_best_fuzzy_match s1 s2 ps hay 72).2.1 = 100) ∨
       ((_best_fuzzy_match s1 s2 ps hay 72).2.2 = "fuzzy" ∧
        72 ≤ (_best_fuzzy_match s1 s2 ps hay 72).2.1))) :=
  bfmGo_shape s1 s2 hay ps (none, 0, "none") (fun _ => ⟨rfl, rfl⟩)
    (fun m hm => absurd hm (by simp)) le_rfl

/-- C7.  A rubric entry with all expected fields missing is fail-soft: it
evaluates to a zero-weight, never-passing breakdown entry, and inserting
it into any rubric leaves the score, the point totals and the passed count
unchanged (only the failed count grows); the engine is total, returning a
result for every rubric. -/
theorem malformed_criterion_failsoft (s1 s2 : String → String → ℚ) (t transcript : String)
    (rest : List Criterion) :
    evalCriterion s1 s2 t malformedCriterion = ⟨none, "", "", 0, false, none, 0, "none"⟩ ∧
    (score_with_breakdown s1 s2 transcript (malformedCriterion :: rest)).1 =
      (score_with_breakdown s1 s2 transcript rest).1 ∧
    (score_with_breakdown s1 s2 transcript (malformedCriterion :: rest)).2.2.total_points =
      (score_with_breakdown s1 s2 transcript rest).2.2.total_points ∧
    (score_with_breakdown s1 s2 transcript (malformedCriterion :: rest)).2.2.earned_points =
      (score_with_breakdown s1 s2 transcript rest).2.2.earned_points ∧
    (score_with_breakdown s1 s2 transcript (malformedCriterion :: rest)).2.2.passed =
      (score_with_breakdown s1 s2 transcript rest).2.2.passed ∧
    (score_with_breakdown s1 s2 transcript (malformedCriterion :: rest)).2.2.failed =
      (score_with_breakdown s1 s2 transcript rest).2.2.failed + 1 ∧
    (score_with_breakdown s1 s2 transcript (malformedCriterion :: rest)).2.1 =
      ⟨none, "", "", 0, false, none, 0, "none"⟩ ::
        (score_with_breakdown s1 s2 transcript rest).2.1 := by
  have hmal : evalCriterion s1 s2 (pyLower transcript) malformedCriterion =
      ⟨none, "", "", 0, false, none, 0, "none"⟩ := rfl
  refine ⟨rfl, ?_, ?_, ?_, ?_, ?_, ?_⟩ <;>
    simp [score_with_breakdown, swbGo, hmal, List.countP_cons]

/-- C6 counterexample.  A criterion whose only keyword is the multi-word
phrase `"thank you for calling"`, evaluated on a transcript containing it
verbatim: the exact-only pool is empty, so the pass comes from the fuzzy
matching stage — but with mode `"substring"`, not `"fuzzy"` as the claim
states. -/
theorem criterion_fuzzy_stage_substring_mode :
    exactOnly ⟨none, none, none, some ["thank you for calling"], none, some 5⟩ = [] ∧
    _best_fuzzy_match (fun _ _ => 0) (fun _ _ => 0)
        (fuzzyPool ⟨none, none, none, some ["thank you for calling"], none, some 5⟩)
        "thank you for calling" 72 = (some "thank you for calling", 100, "substring") ∧
    (evalCriterion (fun _ _ => 0) (fun _ _ => 0) "thank you for calling"
        ⟨none, none, none, some ["thank you for calling"], none, some 5⟩).passed = true ∧
    (evalCriterion (fun _ _ => 0) (fun _ _ => 0) "thank you for calling"
        ⟨none, none, none, some ["thank you for calling"], none, some 5⟩).mode ≠ "fuzzy" := by
  refine ⟨by decide, by decide, by decide, by decide⟩

/-- C6 (amended).  Per-criterion evaluation order: the exact-only keywords
are scanned first and the first hit passes the criterion with similarity
100 and mode `"substring"`; only when no exact-only keyword matched and
the fuzzy-eligible pool is non-empty is the fuzzy matching engine invoked
with floor 72, and a match returned from that stage passes the criterion
with the mode reported by that stage — `"substring"` or `"fuzzy"`; if
neither stage matches, the criterion fails with no matched phrase,
similarity 0 and mode `"none"`. -/
theorem criterion_evaluation_order (s1 s2 : String → String → ℚ) (t : String)
    (item : Criterion) :
    (∀ k, firstExactHit t (exactOnly item) = some k →
      evalCriterion s1 s2 t item =
        { baseEntry item with
            passed := true
            matched_phrase := some k
            similarity := 100
            mode := "substring" }) ∧
    (firstExactHit t (exactOnly item) = none → fuzzyPool item ≠ [] →
      ∀ m sc md, _best_fuzzy_match s1 s2 (fuzzyPool item) t 72 = (some m, sc, md) →
        (md = "substring" ∨ md = "fuzzy") ∧
        evalCriterion s1 s2 t item =
          { baseEntry item with
            passed := true
            matched_phrase := some m
            similarity := sc
            mode := md }) ∧
    (firstExactHit t (exactOnly item) = none →
      ((_best_fuzzy_match s1 s2 (fuzzyPool item) t 72).1 = none ∨ fuzzyPool item = []) →
      evalCriterion s1 s2 t item = baseEntry item) := by
  refine ⟨?_, ?_, ?_⟩
  · intro k hk
    simp only [evalCriterion, hk]
  · intro hex hpool m sc md hbfm
    have hsh := (bfm_shape s1 s2 (fuzzyPool item) t).2 m (by rw [hbfm])
    rw [hbfm] at hsh
    simp only at hsh
    obtain ⟨hm, hdisj⟩ := hsh
    have hsc : (72 : ℤ) ≤ sc := by
      rcases hdisj with ⟨_, h100⟩ | ⟨_, h72⟩
      · rw [h100]; norm_num
      · exact h72
    have hie : (fuzzyPool item).isEmpty = false := by
      cases hfp : fuzzyPool item with
      | nil => exact absurd hfp hpool
      | cons a l => rfl
    refine ⟨?_, ?_⟩
    · rcases hdisj with ⟨h, _⟩ | ⟨h, _⟩
      · exact Or.inl h
      · exact Or.inr h
    · simp only [evalCriterion, hex, hie, Bool.false_eq_true, if_false, hbfm]
      rw [if_pos ⟨hm, hsc⟩]
  · intro hex hfail
    rcases hfail with hnone | hempty
    · have hz := (bfm_shape s1 s2 (fuzzyPool item) t).1 hnone
      simp only [evalCriterion, hex]
      by_cases hie : (fuzzyPool item).isEmpty
      · rw [if_pos hie]
      · rw [if_neg hie, hz]
    · simp only [evalCriterion, hex, hempty, List.isEmpty_nil, if_true]

/-- C6 witness: `criterion_evaluation_order` applied to a concrete
criterion and transcript for each of the three conjuncts. -/
theorem criterion_evaluation_order_witness :
    evalCriterion (fun _ _ => 0) (fun _ _ => 0) "please say hi"
        ⟨some "a", none, none, some ["hi"], none, some 3⟩ =
      { baseEntry ⟨some "a", none, none, some ["hi"], none, some 3⟩ with
          passed := true
          matched_phrase := some "hi"
          similarity := 100
          mode := "substring" } ∧
    evalCriterion (fun _ _ => 80) (fun _ _ => 0) "nothing relevant"
        ⟨some "b", none, none, some ["appreciate you"], none, some 3⟩ =
      { baseEntry ⟨some "b", none, none, some ["appreciate you"], none, some 3⟩ with
          passed := true
          matched_phrase := some "appreciate you"
          similarity := 80
          mode := "fuzzy" } ∧
    evalCriterion (fun _ _ => 10) (fun _ _ => 0) "nothing relevant"
        ⟨some "c", none, none, some ["appreciate you"], none, some 3⟩ =
      baseEntry ⟨some "c", none, none, some ["appreciate you"], none, some 3⟩ := by
  refine ⟨?_, ?_, ?_⟩
  · exact (criterion_evaluation_order (fun _ _ => 0) (fun _ _ => 0) "please say hi"
      ⟨some "a", none, none, some ["hi"], none, some 3⟩).1 "hi" (by decide)
  · exact ((criterion_evaluation_order (fun _ _ => 80) (fun _ _ => 0) "nothing relevant"
      ⟨some "b", none, none, some ["appreciate you"], none, some 3⟩).2.1 (by decide)
      (by decide) "appreciate you" 80 "fuzzy" (by decide)).2
  · exact (criterion_evaluation_order (fun _ _ => 10) (fun _ _ => 0) "nothing relevant"
      ⟨some "c", none, none, some ["appreciate you"], none, some 3⟩).2.2 (by decide)
      (Or.inl (by decide))

/-- Internal consistency of one breakdown entry (C10's invariant). -/
def entryConsistent (e : BreakdownEntry) : Prop :=
  ((e.passed = true) ↔ e.mode ≠ "none") ∧
  (e.mode = "substring" → e.similarity = 100) ∧
  (e.mode = "fuzzy" → 72 ≤ e.similarity) ∧
  (e.mode = "none" → e.matched_phrase = none ∧ e.similarity = 0)

lemma pass_entry_consistent (item : Criterion) (m : String) (sc : Int) (md : String)
    (h : md = "substring" ∧ sc = 100 ∨ md = "fuzzy" ∧ 72 ≤ sc) :
    entryConsistent
      { baseEntry item with
        passed := true
        matched_phrase := some m
        similarity := sc
        mode := md } := by
  unfold entryConsistent
  rcases h with ⟨hmd, hsc⟩ | ⟨hmd, hsc⟩
  · subst hmd; subst hsc
    exact ⟨by simp, fun _ => rfl, fun hh => absurd hh (by simp), fun hh => absurd hh (by simp)⟩
  · subst hmd
    exact ⟨by simp, fun hh => absurd hh (by simp), fun _ => hsc, fun hh => absurd hh (by simp)⟩

lemma base_entry_consistent (item : Criterion) : entryConsistent (baseEntry item) :=
  ⟨by simp [baseEntry], fun h => absurd h (by simp [baseEntry]),
    fun h => absurd h (by simp [baseEntry]), fun _ => ⟨rfl, rfl⟩⟩

lemma evalCriterion_consistent (s1 s2 : String → String → ℚ) (t : String) (item : Criterion) :
    entryConsistent (evalCriterion s1 s2 t item) := by
  cases hex : firstExactHit t (exactOnly item) with
  | some k =>
    rw [(criterion_evaluation_order s1 s2 t item).1 k hex]
    exact pass_entry_consistent item k 100 "substring" (Or.inl ⟨rfl, rfl⟩)
  | none =>
    by_cases hpool : fuzzyPool item = []
    · rw [(criterion_evaluation_order s1 s2 t item).2.2 hex (Or.inr hpool)]
      exact base_entry_consistent item
    · cases hbfm : _best_fuzzy_match s1 s2 (fuzzyPool item) t 72 with
      | mk mp rest =>
        cases mp with
        | none =>
          rw [(criterion_evaluation_order s1 s2 t item).2.2 hex (Or.inl (by rw [hbfm]))]
          exact base_entry_consistent item
        | some m =>
          obtain ⟨hmode, heq⟩ := (criterion_evaluation_order s1 s2 t item).2.1 hex hpool
            m rest.1 rest.2 (by rw [hbfm])
          have hsim := (bfm_shape s1 s2 (fuzzyPool item) t).2 m (by rw [hbfm])
          rw [hbfm] at hsim
          simp only at hsim
          rw [heq]
          apply pass_entry_consistent
          rcases hsim.2 with ⟨ha, hb⟩ | ⟨ha, hb⟩
          · exact Or.inl ⟨ha, hb⟩
          · exact Or.inr ⟨ha, hb⟩

/-- C10.  Every breakdown entry produced by the scoring engine is
internally consistent: `passed` holds iff the mode is not `"none"`; mode
`"substring"` carries similarity exactly 100; mode `"fuzzy"` carries an
integer similarity of at least 72; and mode `"none"` carries no matched
phrase and similarity 0. -/
theorem breakdown_entry_consistency (s1 s2 : String → String → ℚ) (transcript : String)
    (criteria : List Criterion) :
    ∀ e ∈ (score_with_breakdown s1 s2 transcript criteria).2.1,
      ((e.passed = true) ↔ e.mode ≠ "none") ∧
      (e.mode = "substring" → e.similarity = 100) ∧
      (e.mode = "fuzzy" → 72 ≤ e.similarity) ∧
      (e.mode = "none" → e.matched_phrase = none ∧ e.similarity = 0) := by
  intro e he
  have hbd : (score_with_breakdown s1 s2 transcript criteria).2.1 =
      criteria.map (evalCriterion s1 s2 (pyLower transcript)) := by
    simp [score_with_breakdown, swbGo_breakdown]
  rw [hbd] at he
  obtain ⟨item, _, rfl⟩ := List.mem_map.mp he
  exact evalCriterion_consistent s1 s2 (pyLower transcript) item

/-- C10 witness: `breakdown_entry_consistency` applied to the entry of a
concrete one-criterion rubric. -/
theorem breakdown_entry_consistency_witness :
    (((score_with_breakdown (fun _ _ => 0) (fun _ _ => 0) "well hello"
          [⟨some "g", none, none, some ["hello"], none, some 10⟩]).2.1.headD
        ⟨none, "", "", 0, false, none, 0, "none"⟩).passed = true ↔
      ((score_with_breakdown (fun _ _ => 0) (fun _ _ => 0) "well hello"
          [⟨some "g", none, none, some ["hello"], none, some 10⟩]).2.1.headD
        ⟨none, "", "", 0, false, none, 0, "none"⟩).mode ≠ "none") ∧
    (((score_with_breakdown (fun _ _ => 0) (fun _ _ => 0) "well hello"
          [⟨some "g", none, none, some ["hello"], none, some 10⟩]).2.1.headD
        ⟨none, "", "", 0, false, none, 0, "none"⟩).mode = "substring" →
      ((score_with_breakdown (fun _ _ => 0) (fun _ _ => 0) "well hello"
          [⟨some "g", none, none, some ["hello"], none, some 10⟩]).2.1.headD
        ⟨none, "", "", 0, false, none, 0, "none"⟩).similarity = 100) ∧
    (((score_with_breakdown (fun _ _ => 0) (fun _ _ => 0) "well hello"
          [⟨some "g", none, none, some ["hello"], none, some 10⟩]).2.1.headD
        ⟨none, "", "", 0, false, none, 0, "none"⟩).mode = "fuzzy" →
      72 ≤ ((score_with_breakdown (fun _ _ => 0) (fun _ _ => 0) "well hello"
          [⟨some "g", none, none, some ["hello"], none, some 10⟩]).2.1.headD
        ⟨none, "", "", 0, false, none, 0, "none"⟩).similarity) ∧
    (((score_with_breakdown (fun _ _ => 0) (fun _ _ => 0) "well hello"
          [⟨some "g", none, none, some ["hello"], none, some 10⟩]).2.1.headD
        ⟨none, "", "", 0, false, none, 0, "none"⟩).mode = "none" →
      ((score_with_breakdown (fun _ _ => 0) (fun _ _ => 0) "well hello"
          [⟨some "g", none, none, some ["hello"], none, some 10⟩]).2.1.headD
        ⟨none, "", "", 0, false, none, 0, "none"⟩).matched_phrase = none ∧
      ((score_with_breakdown (fun _ _ => 0) (fun _ _ => 0) "well hello"
          [⟨some "g", none, none, some ["hello"], none, some 10⟩]).2.1.headD
        ⟨none, "", "", 0, false, none, 0, "none"⟩).similarity = 0) :=
  breakdown_entry_consistency (fun _ _ => 0) (fun _ _ => 0) "well hello"
    [⟨some "g", none, none, some ["hello"], none, some 10⟩]
    ((score_with_breakdown (fun _ _ => 0) (fun _ _ => 0) "well hello"
        [⟨some "g", none, none, some ["hello"], none, some 10⟩]).2.1.headD
      ⟨none, "", "", 0, false, none, 0, "none"⟩)
    (by decide)

/-- C8.  Participant extraction resolves roles with the specified
precedence: the agent is the earliest cue match among `my name is` /
`this is` / `i am` within the first 400 characters, defaulting to the
first captured name; the customer is the first `guest name is` match,
else the first captured name distinct from the cue-resolved agent name,
else the second captured name when at least two matches exist; with no
matches both roles are `none`. -/
theorem participant_role_precedence (raw : String) :
    extract_participant_names raw =
      (packName (agentResolution (nameCueItems raw)),
        packName (customerResolution (nameCueItems raw))) ∧
    (nameCueItems raw = [] → extract_participant_names raw = (none, none)) := by
  constructor
  · by_cases hr : raw = ""
    · subst hr
      rfl
    · unfold extract_participant_names
      rw [if_neg hr]
      by_cases hie : (nameCueItems raw).isEmpty
      · have hnil : nameCueItems raw = [] := by
          cases h : nameCueItems raw with
          | nil => rfl
          | cons a l => rw [h] at hie; exact absurd hie (by simp)
        simp only [hie, if_true, hnil, agentResolution, customerResolution, List.find?_nil,
          List.head?_nil, Option.map_none, packName]
        rfl
      · rw [if_neg hie]
        simp only [agentResolution, customerResolution]
        cases hg : (nameCueItems raw).find?
            (fun (i : Nat × String × String) => i.2.1 = "guest name is") with
        | some ig =>
          cases ha : (nameCueItems raw).find? (fun (i : Nat × String × String) =>
              (i.2.1 = "my name is" ∨ i.2.1 = "this is" ∨ i.2.1 = "i am") ∧ i.1 < 400) with
          | some ia => simp [hg, ha]
          | none =>
            have hne : (nameCueItems raw).head?.isSome := by
              cases h : nameCueItems raw with
              | nil => rw [h] at hie; exact absurd hie (by simp)
              | cons a l => simp
            cases hh : (nameCueItems raw).head? with
            | some ih => simp [hg, ha, hh]
            | none => rw [hh] at hne; exact absurd hne (by simp)
        | none =>
          cases ha : (nameCueItems raw).find? (fun (i : Nat × String × String) =>
              (i.2.1 = "my name is" ∨ i.2.1 = "this is" ∨ i.2.1 = "i am") ∧ i.1 < 400) with
          | some ia =>
            by_cases hae : ia.2.2 = ""
            · simp [hg, ha, hae]
            · cases hd : (nameCueItems raw).find?
                  (fun (i : Nat × String × String) => i.2.2 ≠ ia.2.2) with
              | some idd => simp [hg, ha, hae, hd]
              | none => simp [hg, ha, hae, hd]
          | none =>
            have hne : (nameCueItems raw).head?.isSome := by
              cases h : nameCueItems raw with
              | nil => rw [h] at hie; exact absurd hie (by simp)
              | cons a l => simp
            cases hh : (nameCueItems raw).head? with
            | some ih => simp [hg, ha, hh]
            | none => rw [hh] at hne; exact absurd hne (by simp)
  · intro h
    unfold extract_participant_names
    by_cases hr : raw = ""
    · rw [if_pos hr]
    · rw [if_neg hr]
      simp [h]

/-- C8 witness: `participant_role_precedence` at a concrete transcript
with an agent cue and a guest-name cue. -/
theorem participant_role_precedence_witness :
    extract_participant_names "my name is John Smith ok guest name is Al Bo" =
      (packName (agentResolution
        (nameCueItems "my name is John Smith ok guest name is Al Bo")),
       packName (customerResolution
        (nameCueItems "my name is John Smith ok guest name is Al Bo"))) ∧
    extract_participant_names "" = (none, none) :=
  ⟨(participant_role_precedence "my name is John Smith ok guest name is Al Bo").1,
    (participant_role_precedence "").2 (by decide)⟩

end QA
